import Mathlib

/-!
# Verification of the static-site build pipeline (`build.py`)

A shallow embedding of the build script: the filesystem is a flat association
list from paths (lists of characters, `/`-separated as on posix) to byte
contents; each pipeline stage is a pure function on that filesystem.  External
libraries (PIL image decode/encode, the qrcode generator, the YAML parser, the
jinja2 renderer, htmlmin, gzip) are abstracted as function parameters, since
the script only composes them; everything the script itself does (path
manipulation, control flow, exception handling, file writes) is modelled
explicitly from the source.
-/

set_option autoImplicit false

abbrev Bytes := List Nat

abbrev FPath := List Char

/-- A flat filesystem: file paths with their byte contents.  Directories are
implicit (creating them always succeeds in the script via `os.makedirs` /
`copytree`), so only files are tracked. -/
abbrev FS := List (FPath × Bytes)

/-- Contents of the file at `p`, if present (first entry wins). -/
def fsRead : FS → FPath → Option Bytes
  | [], _ => none
  | (q, c) :: t, p => if q = p then some c else fsRead t p

/-- Write `c` at path `p`, overwriting an existing file. -/
def fsWrite : FS → FPath → Bytes → FS
  | [], p, c => [(p, c)]
  | (q, d) :: t, p, c => if q = p then (p, c) :: t else (q, d) :: fsWrite t p c

/-- Delete the file at path `p` (`os.remove`). -/
def fsRemove : FS → FPath → FS
  | [], _ => []
  | (q, d) :: t, p => if q = p then fsRemove t p else (q, d) :: fsRemove t p

@[simp] theorem fsRead_write_self (fs : FS) (p : FPath) (c : Bytes) :
    fsRead (fsWrite fs p c) p = some c := by
  induction fs with
  | nil => simp [fsRead, fsWrite]
  | cons e t ih =>
    obtain ⟨q, d⟩ := e
    by_cases h : q = p <;> simp [fsRead, fsWrite, h, ih]

theorem fsRead_write_ne (fs : FS) (p r : FPath) (c : Bytes) (h : r ≠ p) :
    fsRead (fsWrite fs p c) r = fsRead fs r := by
  have hpr : p ≠ r := Ne.symm h
  induction fs with
  | nil => simp [fsRead, fsWrite, hpr]
  | cons e t ih =>
    obtain ⟨q, d⟩ := e
    by_cases hq : q = p
    · subst hq
      simp [fsRead, fsWrite, hpr]
    · simp only [fsWrite, if_neg hq, fsRead]
      by_cases hr : q = r
      · simp [hr]
      · simp [hr, ih]

@[simp] theorem fsRead_remove_self (fs : FS) (p : FPath) :
    fsRead (fsRemove fs p) p = none := by
  induction fs with
  | nil => simp [fsRead, fsRemove]
  | cons e t ih =>
    obtain ⟨q, d⟩ := e
    by_cases h : q = p <;> simp [fsRead, fsRemove, h, ih]

theorem fsRead_remove_ne (fs : FS) (p r : FPath) (h : r ≠ p) :
    fsRead (fsRemove fs p) r = fsRead fs r := by
  have hpr : p ≠ r := Ne.symm h
  induction fs with
  | nil => simp [fsRemove]
  | cons e t ih =>
    obtain ⟨q, d⟩ := e
    by_cases hq : q = p
    · subst hq
      simp [fsRead, fsRemove, hpr, ih]
    · simp only [fsRemove, if_neg hq, fsRead]
      by_cases hr : q = r
      · simp [hr]
      · simp [hr, ih]

theorem fsRead_some_mem (fs : FS) (p : FPath) (c : Bytes)
    (h : fsRead fs p = some c) : p ∈ fs.map Prod.fst := by
  induction fs with
  | nil => simp [fsRead] at h
  | cons e t ih =>
    obtain ⟨q, d⟩ := e
    by_cases hq : q = p
    · simp [hq]
    · simp [fsRead, hq] at h
      simp [ih h]

/-! ## `os.path.splitext`

The script classifies files by `os.path.splitext(path)[1].lower()`.  CPython's
`posixpath.splitext` finds the last `/` and the last `.`; it splits at the last
`.` provided it lies inside the final path component and some character other
than `.` precedes it within that component (so dotfiles keep an empty
extension). -/

/-- Index of the last occurrence of `c`, if any (Python `str.rfind`). -/
def lastIndexOf (c : Char) : List Char → Option Nat
  | [] => none
  | a :: t =>
    match lastIndexOf c t with
    | some i => some (i + 1)
    | none => if a = c then some 0 else none

/-- Model of `os.path.splitext` (posix): split `p` into root and extension. -/
def splitext (p : FPath) : FPath × FPath :=
  match lastIndexOf '.' p with
  | none => (p, [])
  | some di =>
    let fi : Nat :=
      match lastIndexOf '/' p with
      | none => 0
      | some s => s + 1
    if fi ≤ di ∧ ((p.drop fi).take (di - fi)).any (fun a => a ≠ '.') then
      (p.take di, p.drop di)
    else (p, [])

/-- The raster-image extension set from the script, lower-cased. -/
def rasterExts : List FPath := [".jpg".data, ".jpeg".data, ".png".data]

/-- The test `file_ext.lower() in ['.jpg', '.jpeg', '.png']`. -/
def isRaster (p : FPath) : Bool :=
  decide (((splitext p).2.map Char.toLower) ∈ rasterExts)

/-- The path the converted image is written to: same root, `.webp` extension
(the f-string at the `img.save` call). -/
def webpTarget (p : FPath) : FPath :=
  (splitext p).1 ++ ".webp".data

/-- The extension returned by `splitext` is a suffix of the path. -/
theorem splitext_snd_suffix (p : FPath) : (splitext p).2 <:+ p := by
  unfold splitext
  cases lastIndexOf '.' p with
  | none => simp
  | some di =>
    simp only
    split
    · exact List.drop_suffix di p
    · simp

theorem suffix_eq_drop {α : Type} {e l : List α} (h : e <:+ l) :
    e = l.drop (l.length - e.length) := by
  obtain ⟨t, ht⟩ := h
  subst ht
  simp [List.drop_left]

/-- A path ending in `.webp` is never classified as a raster image to convert:
its `splitext` extension is `""` or `".webp"`, neither of which is in the
raster set. -/
theorem isRaster_append_webp (x : FPath) :
    isRaster (x ++ ".webp".data) = false := by
  unfold isRaster
  rw [decide_eq_false_iff_not]
  intro hmem
  have hsuf : (splitext (x ++ ".webp".data)).2 <:+ x ++ ".webp".data :=
    splitext_snd_suffix _
  set e := (splitext (x ++ ".webp".data)).2 with he
  have hdrop := suffix_eq_drop hsuf
  have hlen5 : (x ++ ".webp".data).length = x.length + 5 := by
    simp
  have hdropLemma : ∀ n : Nat, (x ++ ".webp".data).drop (x.length + n) =
      ".webp".data.drop n := by
    intro n
    rw [← List.drop_drop, List.drop_left]
  simp only [rasterExts, List.mem_cons, List.not_mem_nil, or_false] at hmem
  rcases hmem with h4 | h5 | h4'
  · have hlen : e.length = 4 := by
      have := congrArg List.length h4
      simpa using this
    have h54 : x.length + 5 - 4 = x.length + 1 := by omega
    rw [hlen5, hlen, h54, hdropLemma 1] at hdrop
    rw [hdrop] at h4
    exact absurd h4 (by decide)
  · have hlen : e.length = 5 := by
      have := congrArg List.length h5
      simpa using this
    have h55 : x.length + 5 - 5 = x.length + 0 := by omega
    rw [hlen5, hlen, h55, hdropLemma 0] at hdrop
    rw [hdrop] at h5
    exact absurd h5 (by decide)
  · have hlen : e.length = 4 := by
      have := congrArg List.length h4'
      simpa using this
    have h54 : x.length + 5 - 4 = x.length + 1 := by omega
    rw [hlen5, hlen, h54, hdropLemma 1] at hdrop
    rw [hdrop] at h4'
    exact absurd h4' (by decide)

/-- The conversion target of any file is itself never raster-classified. -/
theorem isRaster_webpTarget (p : FPath) : isRaster (webpTarget p) = false :=
  isRaster_append_webp _

theorem webpTarget_ne_of_isRaster {p q : FPath} (h : isRaster p = true) :
    webpTarget q ≠ p := by
  intro he
  rw [← he] at h
  rw [isRaster_webpTarget q] at h
  exact absurd h (by decide)

/-! ## The asset walk (`build.py`, section 3)

`shutil.copytree` mirrors the `assets` source tree below `out/`; `os.walk`
then visits every copied file.  A file whose lower-cased extension is in the
raster set is opened with PIL, saved as lossless WebP at the same root, and
the original is deleted; the surrounding `try`/`except` turns a failure on
one file into a logged no-op.  PIL's decoder and the WebP encoder are
abstracted as `dec` (partial: `none` models a raised exception) and `enc`. -/

/-- The `OUTPUT_DIR` prefix plus separator: `copytree` places the source
file `assets/x` at `out/assets/x`. -/
def outPre : FPath := "out/".data

/-- Model of `shutil.copytree`: every source file reappears, byte for byte,
at the mirrored path below `out/`. -/
def copyTree (src : FS) : FS := src.map (fun e => (outPre ++ e.1, e.2))

/-- One iteration of the per-file loop: raster-classified files are decoded,
re-encoded as lossless WebP at `webpTarget`, and the original is removed
(`img.save` before `os.remove`, as in the source); a decode failure
(`except Exception`) leaves the filesystem unchanged; other files were
already copied and are only logged. -/
def procFile (dec : Bytes → Option Bytes) (enc : Bytes → Bytes)
    (fs : FS) (p : FPath) : FS :=
  if isRaster p then
    match fsRead fs p with
    | none => fs
    | some c =>
      match dec c with
      | none => fs
      | some img => fsRemove (fsWrite fs (webpTarget p) (enc img)) p
  else fs

/-- The walk over a list of file paths. -/
def procFiles (dec : Bytes → Option Bytes) (enc : Bytes → Bytes) :
    FS → List FPath → FS
  | fs, [] => fs
  | fs, p :: ps => procFiles dec enc (procFile dec enc fs p) ps

/-- Section 3 of the script: copy the asset tree below `out/`, then walk the
copied files.  (`os.walk` snapshots each directory before its files are
processed, and a conversion writes into the directory being visited, so the
walked list is exactly the copied tree's files.) -/
def processAssets (dec : Bytes → Option Bytes) (enc : Bytes → Bytes)
    (src : FS) : FS :=
  procFiles dec enc (copyTree src) ((copyTree src).map Prod.fst)


theorem procFile_read_raster_ne (dec : Bytes → Option Bytes)
    (enc : Bytes → Bytes) (fs : FS) {r q : FPath}
    (hr : isRaster r = true) (hne : r ≠ q) :
    fsRead (procFile dec enc fs q) r = fsRead fs r := by
  unfold procFile
  split
  · cases hcq : fsRead fs q with
    | none => rfl
    | some c =>
      cases hd : dec c with
      | none => simp only [hd]
      | some img =>
        simp only [hd]
        rw [fsRead_remove_ne _ _ _ hne,
          fsRead_write_ne _ _ _ _ (Ne.symm (webpTarget_ne_of_isRaster hr))]
  · rfl

theorem procFile_read_nonraster (dec : Bytes → Option Bytes)
    (enc : Bytes → Bytes) (fs : FS) {w q : FPath}
    (hw : isRaster w = false) (hnt : webpTarget q ≠ w) :
    fsRead (procFile dec enc fs q) w = fsRead fs w := by
  unfold procFile
  split
  · case isTrue hq =>
    cases hcq : fsRead fs q with
    | none => rfl
    | some c =>
      cases hd : dec c with
      | none => simp only [hd]
      | some img =>
        simp only [hd]
        have hwq : w ≠ q := by
          intro he
          rw [he, hq] at hw
          exact absurd hw (by decide)
        rw [fsRead_remove_ne _ _ _ hwq, fsRead_write_ne _ _ _ _ (Ne.symm hnt)]
  · rfl

theorem procFile_isSome_nonraster (dec : Bytes → Option Bytes)
    (enc : Bytes → Bytes) (fs : FS) {w : FPath} (q : FPath)
    (hw : isRaster w = false) (hsome : (fsRead fs w).isSome = true) :
    (fsRead (procFile dec enc fs q) w).isSome = true := by
  unfold procFile
  split
  · case isTrue hq =>
    cases hcq : fsRead fs q with
    | none => exact hsome
    | some c =>
      cases hd : dec c with
      | none => simp only [hd]; exact hsome
      | some img =>
        simp only [hd]
        have hwq : w ≠ q := by
          intro he
          rw [he, hq] at hw
          exact absurd hw (by decide)
        rw [fsRead_remove_ne _ _ _ hwq]
        by_cases hwt : w = webpTarget q
        · rw [hwt, fsRead_write_self]
          rfl
        · rw [fsRead_write_ne _ _ _ _ hwt]
          exact hsome
  · exact hsome

theorem procFiles_read_none_raster (dec : Bytes → Option Bytes)
    (enc : Bytes → Bytes) (ps : List FPath) :
    ∀ (fs : FS) (p : FPath), isRaster p = true → fsRead fs p = none →
    fsRead (procFiles dec enc fs ps) p = none := by
  induction ps with
  | nil => intro fs p _ h; exact h
  | cons q rest ih =>
    intro fs p hr hnone
    show fsRead (procFiles dec enc (procFile dec enc fs q) rest) p = none
    apply ih _ _ hr
    by_cases hq : p = q
    · subst hq
      simp [procFile, hnone]
    · rw [procFile_read_raster_ne dec enc fs hr hq]
      exact hnone

theorem procFiles_isSome_nonraster (dec : Bytes → Option Bytes)
    (enc : Bytes → Bytes) (ps : List FPath) :
    ∀ (fs : FS) (w : FPath), isRaster w = false →
    (fsRead fs w).isSome = true →
    (fsRead (procFiles dec enc fs ps) w).isSome = true := by
  induction ps with
  | nil => intro fs w _ h; exact h
  | cons q rest ih =>
    intro fs w hw hsome
    show (fsRead (procFiles dec enc (procFile dec enc fs q) rest) w).isSome
      = true
    exact ih _ _ hw (procFile_isSome_nonraster dec enc fs q hw hsome)

theorem procFiles_read_nonraster_eq (dec : Bytes → Option Bytes)
    (enc : Bytes → Bytes) (ps : List FPath) :
    ∀ (fs : FS) (w : FPath), isRaster w = false →
    (∀ q, q ∈ ps → isRaster q = true → webpTarget q ≠ w) →
    fsRead (procFiles dec enc fs ps) w = fsRead fs w := by
  induction ps with
  | nil => intro fs w _ _; rfl
  | cons q rest ih =>
    intro fs w hw hnc
    show fsRead (procFiles dec enc (procFile dec enc fs q) rest) w
      = fsRead fs w
    rw [ih _ _ hw (fun q' hq' => hnc q' (List.mem_cons_of_mem _ hq'))]
    by_cases hq : isRaster q = true
    · exact procFile_read_nonraster dec enc fs hw
        (hnc q (List.mem_cons_self q rest) hq)
    · unfold procFile
      rw [if_neg hq]

/-- Any raster-classified file that decodes successfully and appears in the
walked list ends up converted: its WebP sibling exists and it is gone. -/
theorem procFiles_converts (dec : Bytes → Option Bytes) (enc : Bytes → Bytes)
    (ps : List FPath) :
    ∀ (fs : FS) (p : FPath) (c img : Bytes), p ∈ ps →
    fsRead fs p = some c → isRaster p = true → dec c = some img →
    (fsRead (procFiles dec enc fs ps) (webpTarget p)).isSome = true ∧
    fsRead (procFiles dec enc fs ps) p = none := by
  induction ps with
  | nil => intro fs p c img hmem; exact absurd hmem (List.not_mem_nil p)
  | cons q rest ih =>
    intro fs p c img hmem hread hr hdec
    show (fsRead (procFiles dec enc (procFile dec enc fs q) rest)
        (webpTarget p)).isSome = true ∧
      fsRead (procFiles dec enc (procFile dec enc fs q) rest) p = none
    by_cases hqp : q = p
    · subst hqp
      have hfs' : procFile dec enc fs q =
          fsRemove (fsWrite fs (webpTarget q) (enc img)) q := by
        unfold procFile
        rw [if_pos hr, hread]
        simp only [hdec]
      constructor
      · apply procFiles_isSome_nonraster dec enc rest _ _
          (isRaster_webpTarget q)
        rw [hfs', fsRead_remove_ne _ _ _ (webpTarget_ne_of_isRaster hr),
          fsRead_write_self]
        rfl
      · apply procFiles_read_none_raster dec enc rest _ _ hr
        rw [hfs', fsRead_remove_self]
    · have hmem' : p ∈ rest := by
        cases List.mem_cons.mp hmem with
        | inl h => exact absurd h.symm hqp
        | inr h => exact h
      have hstep : fsRead (procFile dec enc fs q) p = some c := by
        rw [procFile_read_raster_ne dec enc fs hr (fun he => hqp he.symm)]
        exact hread
      exact ih _ p c img hmem' hstep hr hdec

/-- A raster file whose decode fails is left in place with its bytes intact
through the rest of the walk. -/
theorem procFiles_failing_kept (dec : Bytes → Option Bytes)
    (enc : Bytes → Bytes) (ps : List FPath) :
    ∀ (fs : FS) (p : FPath) (c : Bytes),
    fsRead fs p = some c → isRaster p = true → dec c = none →
    fsRead (procFiles dec enc fs ps) p = some c := by
  induction ps with
  | nil => intro fs p c h _ _; exact h
  | cons q rest ih =>
    intro fs p c hread hr hfail
    show fsRead (procFiles dec enc (procFile dec enc fs q) rest) p = some c
    apply ih _ _ _ _ hr hfail
    by_cases hqp : p = q
    · subst hqp
      unfold procFile
      rw [if_pos hr, hread]
      simp only [hfail]
      exact hread
    · rw [procFile_read_raster_ne dec enc fs hr hqp]
      exact hread

/-! ## Paths below `out/`

`copytree` relocates every asset file below `out/`; the prefix `out/`
contains no dot and ends in a separator, so `splitext` — and with it the
raster classification and the conversion target — is unchanged by the
relocation. -/

theorem lastIndexOf_append_some (c : Char) (x y : List Char) (j : Nat)
    (h : lastIndexOf c y = some j) :
    lastIndexOf c (x ++ y) = some (x.length + j) := by
  induction x with
  | nil => simpa using h
  | cons a t ih =>
    rw [List.cons_append]
    unfold lastIndexOf
    rw [ih]
    simp only [List.length_cons, Option.some.injEq]
    omega

theorem lastIndexOf_append_none (c : Char) (x y : List Char)
    (h : lastIndexOf c y = none) :
    lastIndexOf c (x ++ y) = lastIndexOf c x := by
  induction x with
  | nil => simpa using h
  | cons a t ih =>
    rw [List.cons_append]
    unfold lastIndexOf
    rw [ih]

theorem drop_append_add {α : Type} (x y : List α) (n : Nat) :
    (x ++ y).drop (x.length + n) = y.drop n := by
  rw [← List.drop_drop, List.drop_left]

theorem take_append_add {α : Type} (x y : List α) (n : Nat) :
    (x ++ y).take (x.length + n) = x ++ y.take n := by
  induction x with
  | nil => simp
  | cons a t ih =>
    have h1 : (a :: t).length + n = (t.length + n) + 1 := by
      simp only [List.length_cons]
      omega
    rw [List.cons_append, h1, List.take_succ_cons, ih, List.cons_append]

theorem splitext_append_outPre (p : FPath) :
    splitext (outPre ++ p) = (outPre ++ (splitext p).1, (splitext p).2) := by
  have hdotPre : lastIndexOf '.' outPre = none := by decide
  have hsepPre : lastIndexOf '/' outPre = some 3 := by decide
  have hlenPre : outPre.length = 4 := by decide
  unfold splitext
  cases hd : lastIndexOf '.' p with
  | none =>
    rw [lastIndexOf_append_none '.' outPre p hd, hdotPre]
  | some di =>
    rw [lastIndexOf_append_some '.' outPre p di hd, hlenPre]
    simp only
    cases hs : lastIndexOf '/' p with
    | none =>
      rw [lastIndexOf_append_none '/' outPre p hs, hsepPre]
      simp only
      have hc : (3 + 1 ≤ 4 + di) = (0 ≤ di) := by
        simp only [eq_iff_iff]
        omega
      have hslice : (outPre ++ p).drop (3 + 1) = p.drop 0 := by
        have := drop_append_add outPre p 0
        rw [hlenPre] at this
        simpa using this
      have harg : 4 + di - (3 + 1) = di - 0 := by omega
      simp only [hc, hslice, harg]
      by_cases hcond : 0 ≤ di ∧ ((p.drop 0).take (di - 0)).any
          (fun a => a ≠ '.') = true
      · rw [if_pos hcond, if_pos hcond]
        have htake : (outPre ++ p).take (4 + di) = outPre ++ p.take di := by
          have := take_append_add outPre p di
          rwa [hlenPre] at this
        have hdrop : (outPre ++ p).drop (4 + di) = p.drop di := by
          have := drop_append_add outPre p di
          rwa [hlenPre] at this
        rw [htake, hdrop]
      · rw [if_neg hcond, if_neg hcond]
    | some s =>
      rw [lastIndexOf_append_some '/' outPre p s hs, hlenPre]
      simp only
      have hc : (4 + s + 1 ≤ 4 + di) = (s + 1 ≤ di) := by
        simp only [eq_iff_iff]
        omega
      have hslice : (outPre ++ p).drop (4 + s + 1) = p.drop (s + 1) := by
        have := drop_append_add outPre p (s + 1)
        rw [hlenPre] at this
        rw [← this]
        congr 1
      have harg : 4 + di - (4 + s + 1) = di - (s + 1) := by omega
      simp only [hc, hslice, harg]
      by_cases hcond : s + 1 ≤ di ∧ ((p.drop (s + 1)).take (di - (s + 1))).any
          (fun a => a ≠ '.') = true
      · rw [if_pos hcond, if_pos hcond]
        have htake : (outPre ++ p).take (4 + di) = outPre ++ p.take di := by
          have := take_append_add outPre p di
          rwa [hlenPre] at this
        have hdrop : (outPre ++ p).drop (4 + di) = p.drop di := by
          have := drop_append_add outPre p di
          rwa [hlenPre] at this
        rw [htake, hdrop]
      · rw [if_neg hcond, if_neg hcond]

theorem isRaster_append_outPre (p : FPath) :
    isRaster (outPre ++ p) = isRaster p := by
  unfold isRaster
  rw [splitext_append_outPre]

theorem webpTarget_append_outPre (p : FPath) :
    webpTarget (outPre ++ p) = outPre ++ webpTarget p := by
  unfold webpTarget
  rw [splitext_append_outPre, List.append_assoc]

theorem fsRead_copyTree (src : FS) (p : FPath) :
    fsRead (copyTree src) (outPre ++ p) = fsRead src p := by
  induction src with
  | nil => rfl
  | cons e t ih =>
    obtain ⟨q, c⟩ := e
    by_cases h : q = p
    · subst h
      simp [copyTree, fsRead]
    · have hne : outPre ++ q ≠ outPre ++ p :=
        fun he => h (List.append_cancel_left he)
      show fsRead ((outPre ++ q, c) :: copyTree t) (outPre ++ p)
        = fsRead ((q, c) :: t) p
      simp only [fsRead, if_neg hne, if_neg h]
      exact ih

theorem copyTree_paths (src : FS) :
    (copyTree src).map Prod.fst = (src.map Prod.fst).map
      (fun p => outPre ++ p) := by
  simp [copyTree, List.map_map]

/-- C1: for every file of the copied asset tree whose lower-cased extension
is `.jpg`, `.jpeg` or `.png` and whose bytes PIL decodes, the walk re-encodes
it as lossless WebP at the same root and deletes the original: afterwards the
output tree contains the `.webp` sibling and no longer contains the file. -/
theorem c1_raster_converted_to_webp (dec : Bytes → Option Bytes)
    (enc : Bytes → Bytes) (src : FS) (p : FPath) (c img : Bytes)
    (hread : fsRead src p = some c) (hr : isRaster p = true)
    (hdec : dec c = some img) :
    (fsRead (processAssets dec enc src) (outPre ++ webpTarget p)).isSome
      = true ∧
    fsRead (processAssets dec enc src) (outPre ++ p) = none := by
  have hread' : fsRead (copyTree src) (outPre ++ p) = some c := by
    rw [fsRead_copyTree]
    exact hread
  have hr' : isRaster (outPre ++ p) = true := by
    rw [isRaster_append_outPre]
    exact hr
  have hmem : outPre ++ p ∈ (copyTree src).map Prod.fst :=
    fsRead_some_mem _ _ _ hread'
  have h := procFiles_converts dec enc ((copyTree src).map Prod.fst)
    (copyTree src) (outPre ++ p) c img hmem hread' hr' hdec
  rw [webpTarget_append_outPre] at h
  exact h

/-- C7: a decode failure on one asset is confined to that file: the file is
left in place with its original bytes, while every other decodable raster
file of the tree is still converted and the walk runs to completion. -/
theorem c7_per_file_failure_isolated (dec : Bytes → Option Bytes)
    (enc : Bytes → Bytes) (src : FS) (p : FPath) (c : Bytes)
    (hread : fsRead src p = some c) (hr : isRaster p = true)
    (hfail : dec c = none) :
    fsRead (processAssets dec enc src) (outPre ++ p) = some c ∧
    ∀ (q : FPath) (cq iq : Bytes), fsRead src q = some cq →
      isRaster q = true → dec cq = some iq →
      (fsRead (processAssets dec enc src) (outPre ++ webpTarget q)).isSome
        = true ∧
      fsRead (processAssets dec enc src) (outPre ++ q) = none := by
  constructor
  · have hread' : fsRead (copyTree src) (outPre ++ p) = some c := by
      rw [fsRead_copyTree]
      exact hread
    have hr' : isRaster (outPre ++ p) = true := by
      rw [isRaster_append_outPre]
      exact hr
    exact procFiles_failing_kept dec enc _ _ _ _ hread' hr' hfail
  · intro q cq iq hq hrq hdq
    have hread' : fsRead (copyTree src) (outPre ++ q) = some cq := by
      rw [fsRead_copyTree]
      exact hq
    have hr' : isRaster (outPre ++ q) = true := by
      rw [isRaster_append_outPre]
      exact hrq
    have hmem : outPre ++ q ∈ (copyTree src).map Prod.fst :=
      fsRead_some_mem _ _ _ hread'
    have h := procFiles_converts dec enc ((copyTree src).map Prod.fst)
      (copyTree src) (outPre ++ q) cq iq hmem hread' hr' hdq
    rw [webpTarget_append_outPre] at h
    exact h

/-- C9 (amended): a file whose extension is not in the raster set reappears
byte-identically at its mirrored path, provided no raster file of the tree
has it as `.webp` conversion target. -/
theorem c9_nonraster_copied_verbatim (dec : Bytes → Option Bytes)
    (enc : Bytes → Bytes) (src : FS) (p : FPath) (c : Bytes)
    (hnr : isRaster p = false) (hread : fsRead src p = some c)
    (hnc : ∀ q, q ∈ src.map Prod.fst → isRaster q = true →
      webpTarget q ≠ p) :
    fsRead (processAssets dec enc src) (outPre ++ p) = some c := by
  have hnr' : isRaster (outPre ++ p) = false := by
    rw [isRaster_append_outPre]
    exact hnr
  have hnc' : ∀ q', q' ∈ (copyTree src).map Prod.fst →
      isRaster q' = true → webpTarget q' ≠ outPre ++ p := by
    intro q' hq' hrq' he
    rw [copyTree_paths] at hq'
    obtain ⟨q, hq, rfl⟩ := List.mem_map.mp hq'
    rw [isRaster_append_outPre] at hrq'
    rw [webpTarget_append_outPre] at he
    exact hnc q hq hrq' (List.append_cancel_left he)
  have heq := procFiles_read_nonraster_eq dec enc
    ((copyTree src).map Prod.fst) (copyTree src) (outPre ++ p) hnr' hnc'
  show fsRead (procFiles dec enc (copyTree src)
    ((copyTree src).map Prod.fst)) (outPre ++ p) = some c
  rw [heq, fsRead_copyTree]
  exact hread

/-- Decoder stand-in for concrete runs: fails on the byte string `[9]`,
decodes anything else to itself. -/
def decEx : Bytes → Option Bytes := fun b => if b = [9] then none else some b

/-- Encoder stand-in for concrete runs. -/
def encEx : Bytes → Bytes := fun b => b

/-- A source tree holding a decodable `a.jpg` next to a plain `a.webp`
whose bytes differ from the converted image. -/
def srcCex : FS := [("assets/a.jpg".data, [2]), ("assets/a.webp".data, [3])]

/-- C9 counterexample: `assets/a.webp` has a non-raster extension and holds
`[3]` in the source, but after the walk the file at its mirrored path holds
the bytes of the converted `assets/a.jpg` instead — the conversion target of
`a.jpg` collides with it and overwrites it. -/
theorem c9_cex :
    isRaster "assets/a.webp".data = false ∧
    fsRead srcCex "assets/a.webp".data = some [3] ∧
    fsRead (processAssets decEx encEx srcCex)
      (outPre ++ "assets/a.webp".data) = some [2] := by
  decide

/-! ## Metadata, QR generation, rendering, output (`build.py`, sections 4-6)

`details.yaml` is loaded with `yaml.safe_load` inside a `try` whose only
handler is `except FileNotFoundError` (it also spans `env.get_template`).
Consequences taken from the Python semantics of the libraries used:
a `yaml.YAMLError` from an unparsable file is not caught; jinja2's
`TemplateNotFound` derives from `OSError`/`LookupError`, not from
`FileNotFoundError`, so a missing template is not caught either; and
`details['images']` raises an uncaught `KeyError` when the key is absent.
An uncaught exception terminates the interpreter with exit status 1. -/

/-- YAML values as produced by `yaml.safe_load`, restricted to the shapes
the script manipulates: `None`, strings, and (insertion-ordered) mappings
with string keys.  Other scalars play no role in the claims under study. -/
inductive Yaml where
  | nil : Yaml
  | str : List Char → Yaml
  | map : List (List Char × Yaml) → Yaml

/-- Python dict lookup `d[k]` (keys are unique in a loaded mapping; the
first binding wins). -/
def ylookup : List (List Char × Yaml) → List Char → Option Yaml
  | [], _ => none
  | (k, v) :: t, key => if k = key then some v else ylookup t key

/-- Python dict item assignment `d[k] = v`: replace in place if the key
exists, otherwise append. -/
def ysetKey : List (List Char × Yaml) → List Char → Yaml →
    List (List Char × Yaml)
  | [], key, v => [(key, v)]
  | (k, w) :: t, key, v =>
    if k = key then (key, v) :: t else (k, w) :: ysetKey t key v

/-- Python truthiness test `not details`: `None`, the empty string and the
empty mapping are falsy. -/
def yFalsy : Yaml → Bool
  | .nil => true
  | .str s => s.isEmpty
  | .map m => m.isEmpty

/-- Whether `sub` is an initial segment of the second list. -/
def startsWith : List Char → List Char → Bool
  | [], _ => true
  | _ :: _, [] => false
  | a :: s, b :: t => if a = b then startsWith s t else false

/-- Python substring containment `sub in s`. -/
def containsSub (sub : List Char) : List Char → Bool
  | [] => startsWith sub []
  | a :: t => startsWith sub (a :: t) || containsSub sub t

def qrCodeKey : List Char := "qr_code".data
def urlKey : List Char := "url".data
def imagesKey : List Char := "images".data
def qrKey : List Char := "qr".data
def detailsPath : FPath := "details.yaml".data
def templatePath : FPath := "template.html".data
def indexPath : FPath := "out/index.html".data
def qrOutPath : FPath := "out/assets/qr_code_generated.webp".data
def qrRelPath : FPath := "assets/qr_code_generated.webp".data

/-- Outcome of the guard
`'qr_code' in details and 'url' in details['qr_code']` on a top-level
mapping, with `details['qr_code']['url']` when it holds.  `crash` records a
`TypeError`: `'url' in None` raises, and when `details['qr_code']` is a
string containing `'url'` the subsequent indexing `['url']` raises. -/
inductive QrCheck where
  | skip : QrCheck
  | crash : QrCheck
  | gen : Yaml → QrCheck

def qrCheck (kvs : List (List Char × Yaml)) : QrCheck :=
  match ylookup kvs qrCodeKey with
  | none => .skip
  | some (.map m) =>
    match ylookup m urlKey with
    | some v => .gen v
    | none => .skip
  | some (.str s) => if containsSub urlKey s then .crash else .skip
  | some .nil => .crash

/-- How the tail of the script ends: `exited c` models `exit(c)`, `crashed`
an uncaught exception (interpreter exit status 1), `ok` a normal run; each
carries the filesystem at that point. -/
inductive BuildResult where
  | exited : Nat → FS → BuildResult
  | crashed : FS → BuildResult
  | ok : FS → BuildResult

/-- The filesystem when the process ends. -/
def BuildResult.fs : BuildResult → FS
  | .exited _ f => f
  | .crashed f => f
  | .ok f => f

/-- Whether the process exit status is non-zero. -/
def BuildResult.nonzeroExit : BuildResult → Bool
  | .exited c _ => c != 0
  | .crashed _ => true
  | .ok _ => false

/-- Line 100: `details['images']['qr'] = "assets/qr_code_generated.webp"`
on a details mapping `kvs` whose `images` entry is the mapping `im`. -/
def injectQrPath (kvs im : List (List Char × Yaml)) : Yaml :=
  .map (ysetKey kvs imagesKey (.map (ysetKey im qrKey (.str qrRelPath))))

/-- Lines 105-119: load `template.html` (a missing file raises
`TemplateNotFound`, which the `except FileNotFoundError` does not cover),
render the details into it, minify, and write `out/index.html`.  `render`
and `minifyF` abstract jinja2 and htmlmin. -/
def renderStage (render : Bytes → Yaml → Bytes) (minifyF : Bytes → Bytes)
    (d : Yaml) (fs : FS) : BuildResult :=
  match fsRead fs templatePath with
  | none => .crashed fs
  | some tpl => .ok (fsWrite fs indexPath (minifyF (render tpl d)))

/-- Sections 4-6 of the script.  `parse` abstracts `yaml.safe_load` (`none`
models a raised `YAMLError`), `qrMake` the `qrcode.make(url, border=2)`
image, `enc` the lossless-WebP encoding of `img.save`.  In the generation
branch the QR file is saved before the path is injected, so a missing (or
non-mapping) `images` entry crashes with the QR image already on disk.  A
truthy non-mapping metadata value ends in a `TypeError`/`ValueError` inside
the guard or inside `render(details)` without writing anything. -/
def buildTail (parse : Bytes → Option Yaml) (qrMake : Yaml → Nat → Bytes)
    (enc : Bytes → Bytes) (render : Bytes → Yaml → Bytes)
    (minifyF : Bytes → Bytes) (fs : FS) : BuildResult :=
  match fsRead fs detailsPath with
  | none => .exited 1 fs
  | some b =>
    match parse b with
    | none => .crashed fs
    | some d =>
      if yFalsy d then .exited 1 fs
      else
        match d with
        | .map kvs =>
          match qrCheck kvs with
          | .crash => .crashed fs
          | .skip => renderStage render minifyF (.map kvs) fs
          | .gen url =>
            let fs1 := fsWrite fs qrOutPath (enc (qrMake url 2))
            match ylookup kvs imagesKey with
            | some (.map im) =>
              renderStage render minifyF (injectQrPath kvs im) fs1
            | _ => .crashed fs1
        | _ => .crashed fs

theorem ylookup_ysetKey_self (l : List (List Char × Yaml)) (k : List Char)
    (v : Yaml) : ylookup (ysetKey l k v) k = some v := by
  induction l with
  | nil => simp [ysetKey, ylookup]
  | cons e t ih =>
    obtain ⟨k', w⟩ := e
    by_cases h : k' = k
    · subst h
      simp [ysetKey, ylookup]
    · simp only [ysetKey, if_neg h, ylookup]
      exact ih

theorem ylookup_ysetKey_ne (l : List (List Char × Yaml)) (k : List Char)
    (v : Yaml) (r : List Char) (h : r ≠ k) :
    ylookup (ysetKey l k v) r = ylookup l r := by
  have hkr : k ≠ r := Ne.symm h
  induction l with
  | nil => simp [ysetKey, ylookup, hkr]
  | cons e t ih =>
    obtain ⟨k', w⟩ := e
    by_cases hk : k' = k
    · subst hk
      simp [ysetKey, ylookup, hkr]
    · simp only [ysetKey, if_neg hk, ylookup]
      by_cases hr : k' = r
      · simp [hr]
      · simp [hr, ih]

theorem yFalsy_map_of_lookup {kvs : List (List Char × Yaml)}
    {k : List Char} {v : Yaml} (h : ylookup kvs k = some v) :
    yFalsy (.map kvs) = false := by
  cases kvs with
  | nil => simp [ylookup] at h
  | cons e t => rfl

theorem yFalsy_map_ne_nil {kvs : List (List Char × Yaml)} (h : kvs ≠ []) :
    yFalsy (.map kvs) = false := by
  cases kvs with
  | nil => exact absurd rfl h
  | cons e t => rfl

theorem qrCheck_gen {kvs m : List (List Char × Yaml)} {u : Yaml}
    (hqr : ylookup kvs qrCodeKey = some (.map m))
    (hurl : ylookup m urlKey = some u) : qrCheck kvs = .gen u := by
  simp [qrCheck, hqr, hurl]

theorem qrCheck_skip {kvs : List (List Char × Yaml)}
    (h : ylookup kvs qrCodeKey = none ∨
      ∃ m, ylookup kvs qrCodeKey = some (.map m) ∧ ylookup m urlKey = none) :
    qrCheck kvs = .skip := by
  rcases h with h | ⟨m, hm, hu⟩
  · simp [qrCheck, h]
  · simp [qrCheck, hm, hu]

/-- Generation branch of the tail, fully reduced: the QR image is written,
the relative path injected, the template rendered with the injected mapping,
and the minified result written to `out/index.html`. -/
theorem buildTail_gen_eq (parse : Bytes → Option Yaml)
    (qrMake : Yaml → Nat → Bytes) (enc : Bytes → Bytes)
    (render : Bytes → Yaml → Bytes) (minifyF : Bytes → Bytes) (fs : FS)
    (b : Bytes) (kvs m im : List (List Char × Yaml)) (u : Yaml) (tpl : Bytes)
    (hb : fsRead fs detailsPath = some b)
    (hp : parse b = some (.map kvs))
    (hqr : ylookup kvs qrCodeKey = some (.map m))
    (hurl : ylookup m urlKey = some u)
    (him : ylookup kvs imagesKey = some (.map im))
    (htpl : fsRead fs templatePath = some tpl) :
    buildTail parse qrMake enc render minifyF fs =
      .ok (fsWrite (fsWrite fs qrOutPath (enc (qrMake u 2))) indexPath
        (minifyF (render tpl (injectQrPath kvs im)))) := by
  have hfal : yFalsy (.map kvs) = false := yFalsy_map_of_lookup hqr
  have hqc : qrCheck kvs = .gen u := qrCheck_gen hqr hurl
  have htpl1 : fsRead (fsWrite fs qrOutPath (enc (qrMake u 2)))
      templatePath = some tpl := by
    rw [fsRead_write_ne _ _ _ _ (by decide)]
    exact htpl
  simp [buildTail, hb, hp, hfal, hqc, him, renderStage, htpl1]

/-- Skip branch of the tail, fully reduced: the loaded mapping itself is
rendered and written, with no other effect. -/
theorem buildTail_skip_eq (parse : Bytes → Option Yaml)
    (qrMake : Yaml → Nat → Bytes) (enc : Bytes → Bytes)
    (render : Bytes → Yaml → Bytes) (minifyF : Bytes → Bytes) (fs : FS)
    (b : Bytes) (kvs : List (List Char × Yaml)) (tpl : Bytes)
    (hb : fsRead fs detailsPath = some b)
    (hp : parse b = some (.map kvs))
    (hqc : qrCheck kvs = .skip) (hne : kvs ≠ [])
    (htpl : fsRead fs templatePath = some tpl) :
    buildTail parse qrMake enc render minifyF fs =
      .ok (fsWrite fs indexPath (minifyF (render tpl (.map kvs)))) := by
  have hfal : yFalsy (.map kvs) = false := yFalsy_map_ne_nil hne
  simp [buildTail, hb, hp, hfal, hqc, renderStage, htpl]

/-- C2: when the loaded metadata has a `qr_code` mapping with a `url` entry
(and its `images` mapping and the template are in place), the tail writes
the encoded QR image at the fixed path `out/assets/qr_code_generated.webp`,
stores `assets/qr_code_generated.webp` under key `qr` of the images mapping,
and renders with exactly that injected mapping; the stored path ends in the
fixed filename. -/
theorem c2_qr_generated_and_injected (parse : Bytes → Option Yaml)
    (qrMake : Yaml → Nat → Bytes) (enc : Bytes → Bytes)
    (render : Bytes → Yaml → Bytes) (minifyF : Bytes → Bytes) (fs : FS)
    (b : Bytes) (kvs m im : List (List Char × Yaml)) (u : Yaml) (tpl : Bytes)
    (hb : fsRead fs detailsPath = some b)
    (hp : parse b = some (.map kvs))
    (hqr : ylookup kvs qrCodeKey = some (.map m))
    (hurl : ylookup m urlKey = some u)
    (him : ylookup kvs imagesKey = some (.map im))
    (htpl : fsRead fs templatePath = some tpl) :
    buildTail parse qrMake enc render minifyF fs =
      .ok (fsWrite (fsWrite fs qrOutPath (enc (qrMake u 2))) indexPath
        (minifyF (render tpl (injectQrPath kvs im)))) ∧
    fsRead (buildTail parse qrMake enc render minifyF fs).fs qrOutPath
      = some (enc (qrMake u 2)) ∧
    ylookup (ysetKey kvs imagesKey
        (.map (ysetKey im qrKey (.str qrRelPath)))) imagesKey
      = some (.map (ysetKey im qrKey (.str qrRelPath))) ∧
    ylookup (ysetKey im qrKey (.str qrRelPath)) qrKey
      = some (.str qrRelPath) ∧
    "qr_code_generated.webp".data <:+ qrRelPath := by
  have heq := buildTail_gen_eq parse qrMake enc render minifyF fs b kvs m im
    u tpl hb hp hqr hurl him htpl
  refine ⟨heq, ?_, ylookup_ysetKey_self _ _ _, ylookup_ysetKey_self _ _ _,
    ⟨"assets/".data, by decide⟩⟩
  rw [heq]
  show fsRead (fsWrite (fsWrite fs qrOutPath (enc (qrMake u 2))) indexPath
    (minifyF (render tpl (injectQrPath kvs im)))) qrOutPath
    = some (enc (qrMake u 2))
  rw [fsRead_write_ne _ _ _ _ (by decide), fsRead_write_self]

/-- C3: if `details.yaml` does not parse (`yaml.YAMLError`, uncaught) or
parses to a falsy value (`exit(1)`), the process ends with a non-zero status
and the filesystem — in particular `out/index.html` — is untouched. -/
theorem c3_bad_metadata_exits_nonzero (parse : Bytes → Option Yaml)
    (qrMake : Yaml → Nat → Bytes) (enc : Bytes → Bytes)
    (render : Bytes → Yaml → Bytes) (minifyF : Bytes → Bytes) (fs : FS)
    (b : Bytes) (hb : fsRead fs detailsPath = some b)
    (h : parse b = none ∨ ∃ d, parse b = some d ∧ yFalsy d = true) :
    (buildTail parse qrMake enc render minifyF fs).nonzeroExit = true ∧
    (buildTail parse qrMake enc render minifyF fs).fs = fs := by
  rcases h with h | ⟨d, hd, hf⟩
  · simp [buildTail, hb, h, BuildResult.nonzeroExit, BuildResult.fs]
  · simp [buildTail, hb, hd, hf, BuildResult.nonzeroExit, BuildResult.fs]

/-- C4: with `template.html` missing, no run reaches the output write:
whatever the metadata, the process ends with a non-zero status (`exit(1)` or
an uncaught exception) and `out/index.html` is not written. -/
theorem c4_missing_template_fatal (parse : Bytes → Option Yaml)
    (qrMake : Yaml → Nat → Bytes) (enc : Bytes → Bytes)
    (render : Bytes → Yaml → Bytes) (minifyF : Bytes → Bytes) (fs : FS)
    (htpl : fsRead fs templatePath = none) :
    (buildTail parse qrMake enc render minifyF fs).nonzeroExit = true ∧
    fsRead (buildTail parse qrMake enc render minifyF fs).fs indexPath
      = fsRead fs indexPath := by
  cases hb : fsRead fs detailsPath with
  | none => simp [buildTail, hb, BuildResult.nonzeroExit, BuildResult.fs]
  | some b =>
    cases hp : parse b with
    | none =>
      simp [buildTail, hb, hp, BuildResult.nonzeroExit, BuildResult.fs]
    | some d =>
      by_cases hf : yFalsy d = true
      · simp [buildTail, hb, hp, hf, BuildResult.nonzeroExit, BuildResult.fs]
      · cases d with
        | nil => exact absurd rfl hf
        | str s =>
          simp [buildTail, hb, hp, hf, BuildResult.nonzeroExit,
            BuildResult.fs]
        | map kvs =>
          cases hq : qrCheck kvs with
          | crash =>
            simp [buildTail, hb, hp, hf, hq, BuildResult.nonzeroExit,
              BuildResult.fs]
          | skip =>
            simp [buildTail, hb, hp, hf, hq, renderStage, htpl,
              BuildResult.nonzeroExit, BuildResult.fs]
          | gen url =>
            have htpl1 : fsRead (fsWrite fs qrOutPath (enc (qrMake url 2)))
                templatePath = none := by
              rw [fsRead_write_ne _ _ _ _ (by decide)]
              exact htpl
            have hidx1 : fsRead (fsWrite fs qrOutPath (enc (qrMake url 2)))
                indexPath = fsRead fs indexPath :=
              fsRead_write_ne _ _ _ _ (by decide)
            cases him : ylookup kvs imagesKey with
            | none =>
              simp [buildTail, hb, hp, hf, hq, him, hidx1,
                BuildResult.nonzeroExit, BuildResult.fs]
            | some v =>
              cases v with
              | nil =>
                simp [buildTail, hb, hp, hf, hq, him, hidx1,
                  BuildResult.nonzeroExit, BuildResult.fs]
              | str s =>
                simp [buildTail, hb, hp, hf, hq, him, hidx1,
                  BuildResult.nonzeroExit, BuildResult.fs]
              | map im =>
                simp [buildTail, hb, hp, hf, hq, him, renderStage, htpl1,
                  hidx1, BuildResult.nonzeroExit, BuildResult.fs]

/-- C5: the metadata changes exactly once between loading and rendering.
When `qr_code.url` is present (with the `images` mapping in place), the
renderer receives the loaded mapping with only the `qr` entry of `images`
set: every other top-level key, and every other key of `images`, reads
unchanged.  When the guard skips, the renderer receives the loaded mapping
itself. -/
theorem c5_metadata_mutated_once (parse : Bytes → Option Yaml)
    (qrMake : Yaml → Nat → Bytes) (enc : Bytes → Bytes)
    (render : Bytes → Yaml → Bytes) (minifyF : Bytes → Bytes) (fs : FS)
    (b : Bytes) (kvs : List (List Char × Yaml)) (tpl : Bytes)
    (hb : fsRead fs detailsPath = some b)
    (hp : parse b = some (.map kvs))
    (htpl : fsRead fs templatePath = some tpl) :
    (∀ (m im : List (List Char × Yaml)) (u : Yaml),
      ylookup kvs qrCodeKey = some (.map m) →
      ylookup m urlKey = some u →
      ylookup kvs imagesKey = some (.map im) →
      buildTail parse qrMake enc render minifyF fs =
        .ok (fsWrite (fsWrite fs qrOutPath (enc (qrMake u 2))) indexPath
          (minifyF (render tpl (injectQrPath kvs im)))) ∧
      (∀ k, k ≠ imagesKey →
        ylookup (ysetKey kvs imagesKey
          (.map (ysetKey im qrKey (.str qrRelPath)))) k = ylookup kvs k) ∧
      (∀ k, k ≠ qrKey →
        ylookup (ysetKey im qrKey (.str qrRelPath)) k = ylookup im k)) ∧
    ((ylookup kvs qrCodeKey = none ∨
      ∃ m, ylookup kvs qrCodeKey = some (.map m) ∧
        ylookup m urlKey = none) → kvs ≠ [] →
      buildTail parse qrMake enc render minifyF fs =
        .ok (fsWrite fs indexPath (minifyF (render tpl (.map kvs))))) := by
  constructor
  · intro m im u hqr hurl him
    refine ⟨buildTail_gen_eq parse qrMake enc render minifyF fs b kvs m im
      u tpl hb hp hqr hurl him htpl, ?_, ?_⟩
    · intro k hk
      exact ylookup_ysetKey_ne _ _ _ _ hk
    · intro k hk
      exact ylookup_ysetKey_ne _ _ _ _ hk
  · intro hskip hne
    exact buildTail_skip_eq parse qrMake enc render minifyF fs b kvs tpl
      hb hp (qrCheck_skip hskip) hne htpl

/-- C10: metadata with `qr_code.url` but no `images` key: the QR image file
is saved, then `details['images']` raises an uncaught `KeyError`, so the
process ends non-zero with the QR image on disk and no `out/index.html`. -/
theorem c10_missing_images_crash (parse : Bytes → Option Yaml)
    (qrMake : Yaml → Nat → Bytes) (enc : Bytes → Bytes)
    (render : Bytes → Yaml → Bytes) (minifyF : Bytes → Bytes) (fs : FS)
    (b : Bytes) (kvs m : List (List Char × Yaml)) (u : Yaml)
    (hb : fsRead fs detailsPath = some b)
    (hp : parse b = some (.map kvs))
    (hqr : ylookup kvs qrCodeKey = some (.map m))
    (hurl : ylookup m urlKey = some u)
    (him : ylookup kvs imagesKey = none) :
    buildTail parse qrMake enc render minifyF fs =
      .crashed (fsWrite fs qrOutPath (enc (qrMake u 2))) ∧
    (buildTail parse qrMake enc render minifyF fs).nonzeroExit = true ∧
    fsRead (buildTail parse qrMake enc render minifyF fs).fs qrOutPath
      = some (enc (qrMake u 2)) ∧
    fsRead (buildTail parse qrMake enc render minifyF fs).fs indexPath
      = fsRead fs indexPath := by
  have hfal : yFalsy (.map kvs) = false := yFalsy_map_of_lookup hqr
  have hqc : qrCheck kvs = .gen u := qrCheck_gen hqr hurl
  have heq : buildTail parse qrMake enc render minifyF fs =
      .crashed (fsWrite fs qrOutPath (enc (qrMake u 2))) := by
    simp [buildTail, hb, hp, hfal, hqc, him]
  refine ⟨heq, ?_, ?_, ?_⟩ <;> rw [heq]
  · rfl
  · exact fsRead_write_self _ _ _
  · exact fsRead_write_ne _ _ _ _ (by decide)

/-- C8 (amended): when the top-level mapping has no `qr_code` key, or its
`qr_code` entry is a mapping without a `url` key, QR generation is skipped:
no QR file is produced, no `qr` entry is injected — the renderer receives
the loaded mapping itself — and the HTML is still rendered and written.
(With `qr_code` holding `None` instead, the guard `'url' in None` raises an
uncaught `TypeError`; see the counterexample.) -/
theorem c8_qr_skip_renders (parse : Bytes → Option Yaml)
    (qrMake : Yaml → Nat → Bytes) (enc : Bytes → Bytes)
    (render : Bytes → Yaml → Bytes) (minifyF : Bytes → Bytes) (fs : FS)
    (b : Bytes) (kvs : List (List Char × Yaml)) (tpl : Bytes)
    (hb : fsRead fs detailsPath = some b)
    (hp : parse b = some (.map kvs))
    (hskip : ylookup kvs qrCodeKey = none ∨
      ∃ m, ylookup kvs qrCodeKey = some (.map m) ∧ ylookup m urlKey = none)
    (hne : kvs ≠ [])
    (htpl : fsRead fs templatePath = some tpl) :
    buildTail parse qrMake enc render minifyF fs =
      .ok (fsWrite fs indexPath (minifyF (render tpl (.map kvs)))) ∧
    fsRead (buildTail parse qrMake enc render minifyF fs).fs qrOutPath
      = fsRead fs qrOutPath ∧
    (buildTail parse qrMake enc render minifyF fs).nonzeroExit = false := by
  have heq := buildTail_skip_eq parse qrMake enc render minifyF fs b kvs tpl
    hb hp (qrCheck_skip hskip) hne htpl
  refine ⟨heq, ?_, ?_⟩ <;> rw [heq]
  · exact fsRead_write_ne _ _ _ _ (by decide)
  · rfl

/-- The URL value used in concrete runs. -/
def urlEx : Yaml := .str "https://example.com".data

/-- A loaded mapping with `qr_code.url` and an (empty) `images` mapping. -/
def kvsEx : List (List Char × Yaml) :=
  [(qrCodeKey, .map [(urlKey, urlEx)]), (imagesKey, .map [])]

/-- The `qr_code` sub-mapping of `kvsEx`. -/
def mEx : List (List Char × Yaml) := [(urlKey, urlEx)]

/-- A loaded mapping with `qr_code.url` but no `images` key. -/
def kvsNoIm : List (List Char × Yaml) := [(qrCodeKey, .map mEx)]

/-- Stand-ins for `yaml.safe_load` in concrete runs. -/
def parseQr : Bytes → Option Yaml := fun _ => some (.map kvsEx)

def parseQrNoIm : Bytes → Option Yaml := fun _ => some (.map kvsNoIm)

def parseNoQr : Bytes → Option Yaml :=
  fun _ => some (.map [(imagesKey, .map [])])

/-- Stand-in for `yaml.safe_load` of a file whose `qr_code` key holds
`None` (as `safe_load` yields for a bare `qr_code:` line). -/
def parseNilQr : Bytes → Option Yaml :=
  fun _ => some (.map [(qrCodeKey, .nil), (imagesKey, .map [])])

/-- Parser stand-in for an unparsable file. -/
def parseFail : Bytes → Option Yaml := fun _ => none

/-- QR image, renderer and minifier stand-ins for concrete runs. -/
def qrMakeEx : Yaml → Nat → Bytes := fun _ _ => [1]

def renderEx : Bytes → Yaml → Bytes := fun _ _ => [0]

def minifyEx : Bytes → Bytes := fun b => b

/-- A working directory holding `details.yaml` and `template.html`. -/
def fsEx : FS := [(detailsPath, []), (templatePath, [8])]

/-- A working directory without `template.html`. -/
def fsNoTpl : FS := [(detailsPath, [])]

/-- C8 counterexample: this metadata does not contain a `qr_code` mapping
with a `url` field — its `qr_code` is `None` — yet the build does not skip
and render: `'url' in None` raises `TypeError`, the run crashes, and no
`out/index.html` is written. -/
theorem c8_cex :
    buildTail parseNilQr qrMakeEx encEx renderEx minifyEx fsEx =
      .crashed fsEx ∧
    (buildTail parseNilQr qrMakeEx encEx renderEx minifyEx fsEx).nonzeroExit
      = true ∧
    fsRead (buildTail parseNilQr qrMakeEx encEx renderEx minifyEx fsEx).fs
      indexPath = none := by
  refine ⟨?_, ?_, ?_⟩ <;> rfl

/-! ## Fetch, extract, gzip (`build.py`, section 2) -/

def picoInnerPath : FPath := "pico-main/css/pico.min.css".data
def cssPath : FPath := "out/css/pico.min.css".data
def gzPath : FPath := "out/css/pico.min.css.gz".data

/-- Section 2 after a successful HTTP fetch: extract the one hard-coded
member of the zip (a missing member raises `KeyError`: `none`), move it to
`out/css/pico.min.css`, drop the extraction directory, then write the
gzip-compressed copy of that same file at the sibling `.gz` path.  `gzComp`
abstracts the `gzip` module's compressor; `archive` is the zip's member
table. -/
def fetchStage (gzComp : Bytes → Bytes) (archive : FS) (fs : FS) :
    Option FS :=
  match fsRead archive picoInnerPath with
  | none => none
  | some css =>
    some (fsWrite (fsWrite fs cssPath css) gzPath (gzComp css))

/-- C6: the gzip artifact is a faithful derivation: assuming the gzip
library's round-trip contract, the bytes written at
`out/css/pico.min.css.gz` decompress to exactly the bytes of the extracted
`out/css/pico.min.css`. -/
theorem c6_gzip_roundtrip (gzComp : Bytes → Bytes)
    (gunzip : Bytes → Option Bytes)
    (hgz : ∀ bs, gunzip (gzComp bs) = some bs)
    (archive fs : FS) (css : Bytes)
    (harch : fsRead archive picoInnerPath = some css) :
    ∃ fs', fetchStage gzComp archive fs = some fs' ∧
      fsRead fs' cssPath = some css ∧
      ∃ gzb, fsRead fs' gzPath = some gzb ∧ gunzip gzb = some css := by
  refine ⟨fsWrite (fsWrite fs cssPath css) gzPath (gzComp css), ?_, ?_, ?_⟩
  · simp [fetchStage, harch]
  · rw [fsRead_write_ne _ _ _ _ (by decide), fsRead_write_self]
  · exact ⟨gzComp css, by rw [fsRead_write_self], hgz css⟩

/-! ## Witnesses: the claim theorems applied at concrete inputs -/

/-- Source tree for walk runs: a failing `bad.jpg` and a decodable
`good.png`. -/
def srcFail : FS :=
  [("assets/bad.jpg".data, [9]), ("assets/good.png".data, [2])]

/-- Source tree with a non-raster document and a raster image. -/
def srcDoc : FS := [("assets/doc.pdf".data, [7]), ("assets/a.jpg".data, [2])]

/-- Compressor stand-ins for C6. -/
def gzCompEx : Bytes → Bytes := fun b => b

def gunzipEx : Bytes → Option Bytes := fun b => some b

/-- A one-member archive. -/
def archEx : FS := [(picoInnerPath, [5])]

theorem c1_witness :
    (fsRead (processAssets decEx encEx srcCex)
      (outPre ++ webpTarget "assets/a.jpg".data)).isSome = true ∧
    fsRead (processAssets decEx encEx srcCex)
      (outPre ++ "assets/a.jpg".data) = none :=
  c1_raster_converted_to_webp decEx encEx srcCex "assets/a.jpg".data [2] [2]
    (by decide) (by decide) (by decide)

theorem c2_witness :
    buildTail parseQr qrMakeEx encEx renderEx minifyEx fsEx =
      .ok (fsWrite (fsWrite fsEx qrOutPath (encEx (qrMakeEx urlEx 2)))
        indexPath (minifyEx (renderEx [8] (injectQrPath kvsEx [])))) ∧
    fsRead (buildTail parseQr qrMakeEx encEx renderEx minifyEx fsEx).fs
      qrOutPath = some (encEx (qrMakeEx urlEx 2)) ∧
    ylookup (ysetKey kvsEx imagesKey
        (.map (ysetKey [] qrKey (.str qrRelPath)))) imagesKey
      = some (.map (ysetKey [] qrKey (.str qrRelPath))) ∧
    ylookup (ysetKey [] qrKey (.str qrRelPath)) qrKey
      = some (.str qrRelPath) ∧
    "qr_code_generated.webp".data <:+ qrRelPath :=
  c2_qr_generated_and_injected parseQr qrMakeEx encEx renderEx minifyEx fsEx
    [] kvsEx mEx [] urlEx [8] rfl rfl rfl rfl rfl rfl

theorem c3_witness :
    (buildTail parseFail qrMakeEx encEx renderEx minifyEx fsEx).nonzeroExit
      = true ∧
    (buildTail parseFail qrMakeEx encEx renderEx minifyEx fsEx).fs = fsEx :=
  c3_bad_metadata_exits_nonzero parseFail qrMakeEx encEx renderEx minifyEx
    fsEx [] rfl (Or.inl rfl)

theorem c4_witness :
    (buildTail parseQr qrMakeEx encEx renderEx minifyEx fsNoTpl).nonzeroExit
      = true ∧
    fsRead (buildTail parseQr qrMakeEx encEx renderEx minifyEx fsNoTpl).fs
      indexPath = fsRead fsNoTpl indexPath :=
  c4_missing_template_fatal parseQr qrMakeEx encEx renderEx minifyEx fsNoTpl
    rfl

theorem c5_witness :
    (∀ (m im : List (List Char × Yaml)) (u : Yaml),
      ylookup kvsEx qrCodeKey = some (.map m) →
      ylookup m urlKey = some u →
      ylookup kvsEx imagesKey = some (.map im) →
      buildTail parseQr qrMakeEx encEx renderEx minifyEx fsEx =
        .ok (fsWrite (fsWrite fsEx qrOutPath (encEx (qrMakeEx u 2)))
          indexPath (minifyEx (renderEx [8] (injectQrPath kvsEx im)))) ∧
      (∀ k, k ≠ imagesKey →
        ylookup (ysetKey kvsEx imagesKey
          (.map (ysetKey im qrKey (.str qrRelPath)))) k
          = ylookup kvsEx k) ∧
      (∀ k, k ≠ qrKey →
        ylookup (ysetKey im qrKey (.str qrRelPath)) k = ylookup im k)) ∧
    ((ylookup kvsEx qrCodeKey = none ∨
      ∃ m, ylookup kvsEx qrCodeKey = some (.map m) ∧
        ylookup m urlKey = none) → kvsEx ≠ [] →
      buildTail parseQr qrMakeEx encEx renderEx minifyEx fsEx =
        .ok (fsWrite fsEx indexPath (minifyEx (renderEx [8]
          (.map kvsEx))))) :=
  c5_metadata_mutated_once parseQr qrMakeEx encEx renderEx minifyEx fsEx []
    kvsEx [8] rfl rfl rfl

theorem c6_witness :
    ∃ fs', fetchStage gzCompEx archEx [] = some fs' ∧
      fsRead fs' cssPath = some [5] ∧
      ∃ gzb, fsRead fs' gzPath = some gzb ∧ gunzipEx gzb = some [5] :=
  c6_gzip_roundtrip gzCompEx gunzipEx (fun _ => rfl) archEx [] [5] rfl

theorem c7_witness :
    fsRead (processAssets decEx encEx srcFail)
      (outPre ++ "assets/bad.jpg".data) = some [9] ∧
    ∀ (q : FPath) (cq iq : Bytes), fsRead srcFail q = some cq →
      isRaster q = true → decEx cq = some iq →
      (fsRead (processAssets decEx encEx srcFail)
        (outPre ++ webpTarget q)).isSome = true ∧
      fsRead (processAssets decEx encEx srcFail) (outPre ++ q) = none :=
  c7_per_file_failure_isolated decEx encEx srcFail "assets/bad.jpg".data [9]
    (by decide) (by decide) (by decide)

theorem c8_witness :
    buildTail parseNoQr qrMakeEx encEx renderEx minifyEx fsEx =
      .ok (fsWrite fsEx indexPath (minifyEx (renderEx [8]
        (.map [(imagesKey, .map [])])))) ∧
    fsRead (buildTail parseNoQr qrMakeEx encEx renderEx minifyEx fsEx).fs
      qrOutPath = fsRead fsEx qrOutPath ∧
    (buildTail parseNoQr qrMakeEx encEx renderEx minifyEx fsEx).nonzeroExit
      = false :=
  c8_qr_skip_renders parseNoQr qrMakeEx encEx renderEx minifyEx fsEx []
    [(imagesKey, .map [])] [8] rfl rfl (Or.inl rfl)
    (List.cons_ne_nil _ _) rfl

theorem c9_witness :
    fsRead (processAssets decEx encEx srcDoc)
      (outPre ++ "assets/doc.pdf".data) = some [7] :=
  c9_nonraster_copied_verbatim decEx encEx srcDoc "assets/doc.pdf".data [7]
    (by decide) (by decide) (by decide)

theorem c10_witness :
    buildTail parseQrNoIm qrMakeEx encEx renderEx minifyEx fsEx =
      .crashed (fsWrite fsEx qrOutPath (encEx (qrMakeEx urlEx 2))) ∧
    (buildTail parseQrNoIm qrMakeEx encEx renderEx minifyEx
      fsEx).nonzeroExit = true ∧
    fsRead (buildTail parseQrNoIm qrMakeEx encEx renderEx minifyEx fsEx).fs
      qrOutPath = some (encEx (qrMakeEx urlEx 2)) ∧
    fsRead (buildTail parseQrNoIm qrMakeEx encEx renderEx minifyEx fsEx).fs
      indexPath = fsRead fsEx indexPath :=
  c10_missing_images_crash parseQrNoIm qrMakeEx encEx renderEx minifyEx fsEx
    [] kvsNoIm mEx urlEx rfl rfl rfl rfl rfl
